import Mathlib

/-!
Verification development for the Anor storage engine.

This file gives a shallow embedding of the storage core of the `anor`
repository:

* `storage_packet.rs` is embedded at the byte level: frame headers are
  parsed from byte buffers, and the `From<u8>` conversions that panic on
  unknown tag values are modelled by an explicit `panicked` outcome.
* `storage_codec.rs`, `storage_item.rs` and `storage.rs` are embedded at
  the value level: the payload of a persisted frame is represented
  symbolically (the bincode encoding of the manifest or of an item), the
  in-memory map is an association list with the HashMap operations used
  by the source, and `flush` and `load` are translated step by step.

The theorems at the end of the file settle the frozen claims about this
code.
-/

namespace Anor

/-- Result of a Rust computation that can return a value, return an
error (`Result::Err`), or abort the process (`panic!` in the source). -/
inductive PResult (α : Type) where
  | ok (a : α) : PResult α
  | err (msg : String) : PResult α
  | panicked (msg : String) : PResult α
deriving DecidableEq, Repr

/-- True exactly when the computation returned a value. -/
def PResult.isOk {α : Type} : PResult α → Bool
  | .ok _ => true
  | _ => false

/-- True exactly when the computation returned a Rust error result. -/
def PResult.isErr {α : Type} : PResult α → Bool
  | .err _ => true
  | _ => false

/-- True exactly when the computation aborted with a Rust panic. -/
def PResult.isPanic {α : Type} : PResult α → Bool
  | .panicked _ => true
  | _ => false

/-- A byte of a persisted buffer. -/
abbrev Byte := Fin 256

/-- Model of `STORAGE_PACKET_HEADER_SIZE` from storage_packet.rs. -/
def STORAGE_PACKET_HEADER_SIZE : Nat := 11

/-- Model of `STORAGE_PACKET_VERSION` from storage_packet.rs. -/
def STORAGE_PACKET_VERSION : Nat := 1

/-- Model of `StroragePacketType` from storage_packet.rs (spelling kept from the
source). Discriminants: StrorageInfo = 1, StrorageItem = 2,
StrorageItemObject = 3. -/
inductive StroragePacketType where
  | StrorageInfo
  | StrorageItem
  | StrorageItemObject
deriving DecidableEq, Repr

/-- The `as u8` value of a `StroragePacketType`. -/
def StroragePacketType.toU8 : StroragePacketType → Nat
  | .StrorageInfo => 1
  | .StrorageItem => 2
  | .StrorageItemObject => 3

/-- Model of `impl From<u8> for StroragePacketType`: tags 1..3 convert, any other
value panics with an "Unmatched StroragePacketType value" message. -/
def StroragePacketType.fromU8 (v : Nat) : PResult StroragePacketType :=
  match v with
  | 1 => .ok .StrorageInfo
  | 2 => .ok .StrorageItem
  | 3 => .ok .StrorageItemObject
  | _ => .panicked ("Unmatched StroragePacketType value " ++ toString v)

/-- Model of `StrorageCodecType` from storage_packet.rs. Discriminants:
Bincode = 1 (the default), ProtocolBuffers = 2, FlatBuffers = 3,
MessagePack = 4, CapnProto = 5. -/
inductive StrorageCodecType where
  | Bincode
  | ProtocolBuffers
  | FlatBuffers
  | MessagePack
  | CapnProto
deriving DecidableEq, Repr

/-- The `as u8` value of a `StrorageCodecType`. -/
def StrorageCodecType.toU8 : StrorageCodecType → Nat
  | .Bincode => 1
  | .ProtocolBuffers => 2
  | .FlatBuffers => 3
  | .MessagePack => 4
  | .CapnProto => 5

/-- The `#[default]` codec of the source is Bincode. -/
def StrorageCodecType.default : StrorageCodecType := .Bincode

/-- Model of `impl From<u8> for StrorageCodecType`: tags 1..5 convert, any other
value panics with an "Unmatched CodecType value" message. -/
def StrorageCodecType.fromU8 (v : Nat) : PResult StrorageCodecType :=
  match v with
  | 1 => .ok .Bincode
  | 2 => .ok .ProtocolBuffers
  | 3 => .ok .FlatBuffers
  | 4 => .ok .MessagePack
  | 5 => .ok .CapnProto
  | _ => .panicked ("Unmatched CodecType value " ++ toString v)

/-- Model of `StroragePacketHeader` from storage_packet.rs. -/
structure StroragePacketHeader where
  packet_length : Nat
  packet_type : StroragePacketType
  packet_version : Nat
  codec_type : StrorageCodecType
deriving DecidableEq, Repr

/-- A parsed `StroragePacket`: header plus payload bytes. -/
structure StroragePacket where
  header : StroragePacketHeader
  data : List Byte
deriving DecidableEq, Repr

/-- Model of `u64::from_be_bytes` on a big-endian byte list. -/
def u64_from_be_bytes (l : List Byte) : Nat :=
  l.foldl (fun acc b => acc * 256 + b.val) 0

/-- Byte of a buffer at an index (the source indexes only inside the
bounds-checked header region). -/
def byteAt (buf : List Byte) (i : Nat) : Nat :=
  (buf.getD i (0 : Byte)).val

/-- Model of `parse_packet_header` from storage_packet.rs. The buffer must be at
least 11 bytes long and its declared big-endian `packet_length` must
equal the actual buffer length; then the tag bytes are converted with
the panicking `From<u8>` conversions (packet type first, then codec). -/
def parse_packet_header (buf : List Byte) : PResult StroragePacketHeader :=
  let buf_len := buf.length
  if buf_len < STORAGE_PACKET_HEADER_SIZE then
    .err ("Cannot parse packet header, invalid buffer size: " ++ toString buf_len)
  else
    let packet_length := u64_from_be_bytes (buf.take 8)
    if buf_len ≠ packet_length then
      .err ("Invalid buffer size, expected: " ++ toString packet_length ++
        ", found: " ++ toString buf_len)
    else
      match StroragePacketType.fromU8 (byteAt buf 8) with
      | .err e => .err e
      | .panicked msg => .panicked msg
      | .ok pt =>
        match StrorageCodecType.fromU8 (byteAt buf 10) with
        | .err e => .err e
        | .panicked msg => .panicked msg
        | .ok ct =>
          .ok { packet_length := packet_length, packet_type := pt,
                packet_version := byteAt buf 9, codec_type := ct }

/-- Model of `parse_packet` from storage_packet.rs: parse the header, then the
payload is the buffer with the 11 header bytes drained. -/
def parse_packet (buf : List Byte) : PResult StroragePacket :=
  match parse_packet_header buf with
  | .err e => .err e
  | .panicked msg => .panicked msg
  | .ok header => .ok { header := header, data := buf.drop STORAGE_PACKET_HEADER_SIZE }

/-- The packet-type tag bytes accepted by `From<u8>`. -/
def validPacketTag (v : Nat) : Bool :=
  v = 1 || v = 2 || v = 3

/-- The codec tag bytes accepted by `From<u8>`. -/
def validCodecTag (v : Nat) : Bool :=
  v = 1 || v = 2 || v = 3 || v = 4 || v = 5

/-- Model of `BasicType` from storage_item.rs. -/
inductive BasicType where
  | Bool | I8 | I16 | I32 | I64 | I128
  | U8 | U16 | U32 | U64 | U128
  | F32 | F64 | Char | String
deriving DecidableEq, Repr

/-- Model of `ComplexType` from storage_item.rs. -/
inductive ComplexType where
  | Array (b : BasicType)
  | Set (b : BasicType)
  | Map (k : BasicType) (v : BasicType)
  | Blob | Json | Xml | File | Folder | Path
deriving DecidableEq, Repr

/-- Model of `ItemType` from storage_item.rs. -/
inductive ItemType where
  | Custom
  | Basic (b : BasicType)
  | Complex (c : ComplexType)
deriving DecidableEq, Repr

/-- Model of `StoragePersistence` from storage_persistence.rs. -/
inductive StoragePersistence where
  | Memory
  | Disk
  | Hybrid
deriving DecidableEq, Repr

/-- Model of `StorageItem` from storage_item.rs. The `data` field is the
bincode-encoded byte payload of the inner object. -/
structure StorageItem where
  id : String
  key : String
  version : Nat
  data : List Nat
  item_type : ItemType
  description : Option String
  tags : Option (List String)
  metafields : Option (List (String × String))
  expires_on : Option Nat
  persistence : StoragePersistence
  redundancy : Nat
deriving DecidableEq, Repr

/-- Model of `encode_to_binary` from storage_codec.rs, parametrised by the bincode
encoding function `enc` for the caller type `α` (`bincode::encode_to_vec`
can fail, hence `Option`). Only the Bincode codec is supported; every
other codec returns `None`. -/
def encode_to_binary {α : Type} (enc : α → Option (List Nat)) (obj : α)
    (codec_type : StrorageCodecType) : Option (List Nat) :=
  match codec_type with
  | .Bincode => enc obj
  | _ => none

/-- Model of `decode_from_binary` from storage_codec.rs, parametrised by the
bincode decoding function `dec` for the caller type `α`. -/
def decode_from_binary {α : Type} (dec : List Nat → Option α) (encoded : List Nat)
    (codec_type : StrorageCodecType) : Option α :=
  match codec_type with
  | .Bincode => dec encoded
  | _ => none

/-- Core of `StorageItem::update_object`, applied to the already-computed
encoding result: on success replace `data` and return true, otherwise
leave the item unchanged and return false. -/
def updateObjectWith (it : StorageItem) (encoded : Option (List Nat)) :
    Bool × StorageItem :=
  match encoded with
  | some e => (true, { it with data := e })
  | none => (false, it)

/-- Model of `StorageItem::update_object` from storage_item.rs: re-encode the
object with the default codec; on success replace `data`. The returned
boolean is the Rust return value and the returned item is the mutated
`self`. -/
def StorageItem.update_object {α : Type} (enc : α → Option (List Nat))
    (it : StorageItem) (obj : α) : Bool × StorageItem :=
  updateObjectWith it (encode_to_binary enc obj StrorageCodecType.default)

/-- Model of `StorageItem::get_object` from storage_item.rs. -/
def StorageItem.get_object {α : Type} (dec : List Nat → Option α)
    (it : StorageItem) : Option α :=
  decode_from_binary dec it.data StrorageCodecType.default

/-- Lookup in an association list keyed by strings (the embedding of
`HashMap::get`). -/
def alGet {β : Type} : List (String × β) → String → Option β
  | [], _ => none
  | (k', v) :: rest, k => if k = k' then some v else alGet rest k

/-- Insert-or-replace in an association list (the embedding of
`HashMap::insert`; maps built by the operations have distinct keys). -/
def alInsert {β : Type} : List (String × β) → String → β → List (String × β)
  | [], k, v => [(k, v)]
  | (k', v') :: rest, k, v =>
    if k = k' then (k, v) :: rest else (k', v') :: alInsert rest k v

/-- Removal from an association list (the embedding of `HashMap::remove`). -/
def alRemove {β : Type} : List (String × β) → String → List (String × β)
  | [], _ => []
  | (k', v') :: rest, k => if k = k' then rest else (k', v') :: alRemove rest k

/-- The in-memory map of the storage: `HashMap<String, StorageItem>`. -/
abbrev StorageMap := List (String × StorageItem)

/-- The persisted manifest: `HashMap<String, (String, u64)>` mapping each
key to the pair (id, version). -/
abbrev StorageInfo := List (String × (String × Nat))

/-- Model of `Storage::insert`: the item is stored under its own `key` field. -/
def Storage.insert (m : StorageMap) (storage_item : StorageItem) : StorageMap :=
  alInsert m storage_item.key storage_item

/-- Model of `Storage::update`, which is identical to `Storage::insert`. -/
def Storage.update (m : StorageMap) (storage_item : StorageItem) : StorageMap :=
  Storage.insert m storage_item

/-- Model of `Storage::get`: clone of the item stored under the key. -/
def Storage.get (m : StorageMap) (key : String) : Option StorageItem :=
  alGet m key

/-- Model of `Storage::remove`. -/
def Storage.remove (m : StorageMap) (key : String) : StorageMap :=
  alRemove m key

/-- Model of `Storage::clear`: removes all items. -/
def Storage.clear (_m : StorageMap) : StorageMap := []

/-- Model of `Storage::keys`. -/
def Storage.keys (m : StorageMap) : List String :=
  m.map (fun p => p.1)

/-- Core of `Storage::update_inner_object`, applied to the
already-computed encoding result: if the key is present, run
`update_object` on the stored item (ignoring its boolean result) and
return true; otherwise return false. -/
def Storage.update_inner_objectE (m : StorageMap) (key : String)
    (encoded : Option (List Nat)) : Bool × StorageMap :=
  match alGet m key with
  | some item => (true, alInsert m key (updateObjectWith item encoded).2)
  | none => (false, m)

/-- Model of `Storage::update_inner_object` from storage.rs. -/
def Storage.update_inner_object {α : Type} (enc : α → Option (List Nat))
    (m : StorageMap) (key : String) (obj : α) : Bool × StorageMap :=
  Storage.update_inner_objectE m key (encode_to_binary enc obj StrorageCodecType.default)

/-- Model of `Storage::get_inner_object` from storage.rs. -/
def Storage.get_inner_object {α : Type} (dec : List Nat → Option α)
    (m : StorageMap) (key : String) : Option α :=
  match Storage.get m key with
  | some item => StorageItem.get_object dec item
  | none => none

/-- The payload of a persisted frame, represented symbolically as the
bincode-encoded object it holds (bincode encodings of the manifest and
of items are injective and round-trip). -/
inductive FilePayload where
  | infoP (si : StorageInfo)
  | itemP (it : StorageItem)
deriving DecidableEq, Repr

/-- A persisted file: the frame written by `encode_to_file` (header
fields plus payload). -/
structure Frame where
  packet_type : StroragePacketType
  packet_version : Nat
  codec_type : StrorageCodecType
  payload : FilePayload
deriving DecidableEq, Repr

/-- The frame written by `encode_to_file`: default codec, current packet
version. -/
def encode_file (packet_type : StroragePacketType) (payload : FilePayload) : Frame :=
  { packet_type := packet_type, packet_version := STORAGE_PACKET_VERSION,
    codec_type := StrorageCodecType.default, payload := payload }

/-- Model of `decode_from_file` specialised to `StorageInfo`: the payload decodes
only if the recorded codec is the supported Bincode codec and the
payload is a manifest. -/
def decode_info_file (f : Frame) : Option StorageInfo :=
  match f.codec_type, f.payload with
  | .Bincode, .infoP si => some si
  | _, _ => none

/-- Model of `decode_from_file` specialised to `StorageItem`. -/
def decode_item_file (f : Frame) : Option StorageItem :=
  match f.codec_type, f.payload with
  | .Bincode, .itemP it => some it
  | _, _ => none

/-- The data directory: the optional `storage-info` manifest file and the
blob files of `D/storage/`, keyed by filename. -/
structure Disk where
  info_file : Option Frame
  blobs : List (String × Frame)
deriving DecidableEq, Repr

/-- A fresh data directory. -/
def Disk.empty : Disk := { info_file := none, blobs := [] }

/-- Model of `Storage::load_storage_info`: read and decode `D/storage-info`. -/
def load_storage_info (d : Disk) : Except String StorageInfo :=
  match d.info_file with
  | none => .error "Could not open file: storage-info"
  | some f =>
    match decode_info_file f with
    | some si => .ok si
    | none => .error "Could not open file: storage-info"

/-- Model of `Storage::persist_storage_info`: overwrite `D/storage-info` with the
framed manifest. -/
def persist_storage_info (d : Disk) (storage_info : StorageInfo) : Disk :=
  { d with info_file := some (encode_file .StrorageInfo (.infoP storage_info)) }

/-- Model of `Storage::persist_item`: write the framed item to the blob file named
by the item id (create or truncate). -/
def persist_item (d : Disk) (item : StorageItem) : Disk :=
  { d with blobs := alInsert d.blobs item.id (encode_file .StrorageItem (.itemP item)) }

/-- Model of `Storage::load_item`: read and decode the blob file named by the id. -/
def load_item (d : Disk) (item_id : String) : Except String StorageItem :=
  match alGet d.blobs item_id with
  | none => .error ("Could not open file: " ++ item_id)
  | some f =>
    match decode_item_file f with
    | some it => .ok it
    | none => .error ("Could not open file: " ++ item_id)

/-- Model of `char::to_ascii_lowercase`. -/
def asciiLowerChar (c : Char) : Char :=
  if 65 ≤ c.toNat ∧ c.toNat ≤ 90 then Char.ofNat (c.toNat + 32) else c

/-- Model of `str::to_ascii_lowercase`. -/
def asciiLower (s : String) : String :=
  String.mk (s.data.map asciiLowerChar)

/-- One iteration of the `info_to_persist` construction of
`Storage::flush`: look the key up and record (id, version). -/
def info_step (m : StorageMap) (acc : StorageInfo) (key : String) : StorageInfo :=
  match Storage.get m key with
  | some item => alInsert acc key (item.id, item.version)
  | none => acc

/-- The `info_to_persist` map built by `Storage::flush`: for every key of
the in-memory map, record the item id and version. -/
def info_to_persist (m : StorageMap) : StorageInfo :=
  (Storage.keys m).foldl (info_step m) []

/-- The `needs_persist` decision of `Storage::flush`: rewrite the blob
when no prior manifest could be read, the key is absent from the prior
manifest, the id changed, or the version strictly increased. The prior
entry is looked up under `item.key`. -/
def needs_persist (persisted_info : Option StorageInfo) (item_key item_id : String)
    (item_version : Nat) : Bool :=
  match persisted_info with
  | some prev =>
    match alGet prev item_key with
    | some pv => decide (item_id ≠ pv.1) || decide (pv.2 < item_version)
    | none => true
  | none => true

/-- Result of a flush: the new disk and the keys whose blob file was
rewritten. -/
structure FlushResult where
  disk : Disk
  written : List String
deriving DecidableEq, Repr

/-- One iteration of the write loop of `Storage::flush`, over a manifest
entry (key, (id, version)). -/
def flush_step (m : StorageMap) (persisted_info : Option StorageInfo)
    (acc : FlushResult) (e : String × (String × Nat)) : FlushResult :=
  match Storage.get m e.1 with
  | some item =>
    if needs_persist persisted_info item.key e.2.1 e.2.2 then
      { disk := persist_item acc.disk item, written := acc.written ++ [e.1] }
    else acc
  | none => acc

/-- The orphan test of `Storage::flush`: a blob file is kept exactly
when its lowercased filename is a lowercased current item id. -/
def blob_keep (item_ids : List String) (nf : String × Frame) : Bool :=
  decide (asciiLower nf.1 ∈ item_ids)

/-- Model of `Storage::flush` from storage.rs: best-effort read of the prior
manifest, build and write `info_to_persist`, delete every blob file
whose lowercased filename is not a lowercased current id, then rewrite
the blob of every entry that `needs_persist`. -/
def Storage.flush (m : StorageMap) (d : Disk) : FlushResult :=
  let persisted_info := (load_storage_info d).toOption
  let info := info_to_persist m
  let d1 := persist_storage_info d info
  let item_ids := info.map (fun e => asciiLower e.2.1)
  let d2 : Disk := { d1 with blobs := d1.blobs.filter (blob_keep item_ids) }
  info.foldl (flush_step m persisted_info) { disk := d2, written := [] }

/-- The item-loading loop of `Storage::load`: insert each decoded item,
stopping with the error of the first blob that fails to load. -/
def load_items : List String → StorageMap → Disk → Except String Unit × StorageMap
  | [], m, _ => (.ok (), m)
  | item_id :: rest, m, d =>
    match load_item d item_id with
    | .ok it => load_items rest (Storage.insert m it) d
    | .error e => (.error e, m)

/-- Model of `Storage::load` from storage.rs: clear the map, then read the
manifest; a manifest read failure is only logged (the map stays empty
and the result is Ok), otherwise load the blob of every manifest value. -/
def Storage.load (m0 : StorageMap) (d : Disk) : Except String Unit × StorageMap :=
  let cleared := Storage.clear m0
  match load_storage_info d with
  | .ok storage_info => load_items (storage_info.map (fun e => e.2.1)) cleared d
  | .error _ => (.ok (), cleared)

/-- The id list of the manifest entries (`storage_info.values()` ids). -/
def manifest_ids (d : Disk) : List String :=
  match load_storage_info d with
  | .ok si => si.map (fun e => e.2.1)
  | .error _ => []

/-- True exactly when an `Except` is `Ok`. -/
def exceptIsOk {ε α : Type} : Except ε α → Bool
  | .ok _ => true
  | .error _ => false

/-- A public operation of the storage facade. The `updInner` operation
carries the bincode encoding result of the value passed by the caller. -/
inductive Op where
  | ins (it : StorageItem)
  | upd (it : StorageItem)
  | rem (k : String)
  | clr
  | updInner (k : String) (encoded : Option (List Nat))
  | fl
  | ld

/-- Effect of one public operation on the in-memory map and the disk. -/
def exec_op : StorageMap × Disk → Op → StorageMap × Disk
  | (m, d), .ins it => (Storage.insert m it, d)
  | (m, d), .upd it => (Storage.update m it, d)
  | (m, d), .rem k => (Storage.remove m k, d)
  | (m, d), .clr => (Storage.clear m, d)
  | (m, d), .updInner k enc => ((Storage.update_inner_objectE m k enc).2, d)
  | (m, d), .fl => (m, (Storage.flush m d).disk)
  | (m, d), .ld => ((Storage.load m d).2, d)

/-- Run a sequence of public operations on a freshly opened storage over
an empty data directory. -/
def runOps (ops : List Op) : StorageMap × Disk :=
  ops.foldl exec_op ([], Disk.empty)

/-- A state is reachable when some sequence of public operations
produces it. -/
def Reachable (s : StorageMap × Disk) : Prop :=
  ∃ ops, runOps ops = s

/-- Every map binding stores an item whose `key` field equals the map
key. -/
def KeysMatch (m : StorageMap) : Prop :=
  ∀ p ∈ m, (p.2).key = p.1

/-- The map keys are pairwise distinct (a HashMap invariant). -/
def NodupKeys (m : StorageMap) : Prop :=
  (m.map (fun p => p.1)).Nodup

/-- The item ids are pairwise distinct (ids are freshly drawn UUIDs). -/
def NodupIds (m : StorageMap) : Prop :=
  (m.map (fun p => p.2.id)).Nodup

/-- One in-memory item is in sync with the disk: if its (id, version)
pair already appears unchanged (same id, version not above the recorded
one) in the readable prior manifest, then its blob file currently holds
exactly its own encoding. -/
def in_sync_entry (d : Disk) (prevOpt : Option StorageInfo)
    (p : String × StorageItem) : Bool :=
  match prevOpt with
  | none => true
  | some prev =>
    match alGet prev p.2.key with
    | none => true
    | some pv =>
      if p.2.id = pv.1 ∧ p.2.version ≤ pv.2 then
        decide (alGet d.blobs p.2.id = some (encode_file .StrorageItem (.itemP p.2)))
      else true

/-- Every in-memory item is in sync with the disk (holds in particular
whenever callers bump `version` on every logical update). -/
def InSync (m : StorageMap) (d : Disk) : Prop :=
  ∀ p ∈ m, in_sync_entry d (load_storage_info d).toOption p = true

/-! ### Association list lemmas -/

theorem alGet_alInsert_self {β : Type} (l : List (String × β)) (k : String) (v : β) :
    alGet (alInsert l k v) k = some v := by
  induction l with
  | nil => simp [alInsert, alGet]
  | cons hd tl ih =>
    by_cases h : k = hd.1
    · simp [alInsert, h, alGet]
    · simp only [alInsert]
      rw [if_neg (by simpa using h)]
      simp [alGet, h, ih]

theorem alGet_alInsert_ne {β : Type} (l : List (String × β)) (k k' : String) (v : β)
    (h : k' ≠ k) : alGet (alInsert l k v) k' = alGet l k' := by
  induction l with
  | nil => simp [alInsert, alGet, h]
  | cons hd tl ih =>
    by_cases hk : k = hd.1
    · simp only [alInsert]
      rw [if_pos (by simpa using hk)]
      have hne : k' ≠ hd.1 := by rw [← hk]; exact h
      simp [alGet, h, hne]
    · simp only [alInsert]
      rw [if_neg (by simpa using hk)]
      by_cases hk' : k' = hd.1
      · simp [alGet, hk', ih]
      · simp [alGet, hk', ih]

theorem alInsert_of_get_eq {β : Type} (l : List (String × β)) (k : String) (v : β)
    (h : alGet l k = some v) : alInsert l k v = l := by
  induction l with
  | nil => simp [alGet] at h
  | cons hd tl ih =>
    by_cases hk : k = hd.1
    · simp only [alGet, if_pos hk] at h
      simp only [alInsert]
      rw [if_pos (by simpa using hk)]
      cases hd with
      | mk k0 v0 =>
        simp only at hk h
        have hv := Option.some.inj h
        rw [hk, hv]
    · simp only [alGet, if_neg hk] at h
      simp only [alInsert]
      rw [if_neg (by simpa using hk)]
      rw [ih h]

theorem mem_alInsert {β : Type} (l : List (String × β)) (k : String) (v : β)
    (p : String × β) (h : p ∈ alInsert l k v) : p = (k, v) ∨ p ∈ l := by
  induction l with
  | nil => simpa [alInsert] using h
  | cons hd tl ih =>
    by_cases hk : k = hd.1
    · simp only [alInsert] at h
      rw [if_pos (by simpa using hk)] at h
      rcases List.mem_cons.mp h with h1 | h1
      · exact Or.inl h1
      · exact Or.inr (List.mem_cons_of_mem _ h1)
    · simp only [alInsert] at h
      rw [if_neg (by simpa using hk)] at h
      rcases List.mem_cons.mp h with h1 | h1
      · exact Or.inr (h1 ▸ List.mem_cons_self _ _)
      · rcases ih h1 with h2 | h2
        · exact Or.inl h2
        · exact Or.inr (List.mem_cons_of_mem _ h2)

theorem alGet_mem {β : Type} (l : List (String × β)) (k : String) (v : β)
    (h : alGet l k = some v) : (k, v) ∈ l := by
  induction l with
  | nil => simp [alGet] at h
  | cons hd tl ih =>
    by_cases hk : k = hd.1
    · simp only [alGet, if_pos hk] at h
      cases hd with
      | mk k0 v0 =>
        simp only at hk h
        have hv := Option.some.inj h
        rw [hk, ← hv]
        exact List.mem_cons_self _ _
    · simp only [alGet, if_neg hk] at h
      exact List.mem_cons_of_mem _ (ih h)

theorem alGet_of_mem_nodup {β : Type} (l : List (String × β)) (p : String × β)
    (hnd : (l.map (fun q => q.1)).Nodup) (hp : p ∈ l) : alGet l p.1 = some p.2 := by
  induction l with
  | nil => simp at hp
  | cons hd tl ih =>
    simp only [List.map_cons, List.nodup_cons] at hnd
    rcases List.mem_cons.mp hp with h1 | h1
    · subst h1
      simp [alGet]
    · have hne : p.1 ≠ hd.1 := by
        intro hcontra
        exact hnd.1 (hcontra ▸ List.mem_map_of_mem (fun q => q.1) h1)
      simp only [alGet, if_neg hne]
      exact ih hnd.2 h1

theorem alInsert_eq_append {β : Type} (l : List (String × β)) (k : String) (v : β)
    (h : alGet l k = none) : alInsert l k v = l ++ [(k, v)] := by
  induction l with
  | nil => simp [alInsert]
  | cons hd tl ih =>
    by_cases hk : k = hd.1
    · simp [alGet, if_pos hk] at h
    · simp only [alGet, if_neg hk] at h
      simp only [alInsert]
      rw [if_neg (by simpa using hk)]
      simp [ih h]

theorem alGet_append {β : Type} (l1 l2 : List (String × β)) (k : String) :
    alGet (l1 ++ l2) k = match alGet l1 k with
      | some v => some v
      | none => alGet l2 k := by
  induction l1 with
  | nil => simp [alGet]
  | cons hd tl ih =>
    by_cases hk : k = hd.1
    · simp [alGet, if_pos hk]
    · simp only [List.cons_append, alGet, if_neg hk]
      exact ih

theorem alGet_isSome_alInsert {β : Type} (l : List (String × β)) (k k' : String) (v : β)
    (h : (alGet l k).isSome = true) : (alGet (alInsert l k' v) k).isSome = true := by
  by_cases hk : k = k'
  · subst hk
    rw [alGet_alInsert_self]
    rfl
  · rw [alGet_alInsert_ne _ _ _ _ hk]
    exact h

theorem alGet_filter {β : Type} (l : List (String × β)) (pred : String → Bool) (k : String) :
    alGet (l.filter (fun nf => pred nf.1)) k =
      if pred k then alGet l k else none := by
  induction l with
  | nil => simp [alGet]
  | cons hd tl ih =>
    by_cases hpred : pred hd.1 = true
    · rw [List.filter_cons_of_pos (by simpa using hpred)]
      by_cases hk : k = hd.1
      · have hpk : pred k = true := by rw [hk]; exact hpred
        simp [alGet, hk, hpk, hpred]
      · simp only [alGet, if_neg hk]
        rw [ih]
    · rw [List.filter_cons_of_neg (by simpa using hpred)]
      by_cases hk : k = hd.1
      · have hpk : pred k = false := by rw [hk]; simpa using hpred
        rw [ih, hpk]
        simp
      · rw [ih]
        simp only [alGet, if_neg hk]

theorem alGet_isSome_of_mem_keys {β : Type} (l : List (String × β)) (k : String)
    (h : k ∈ l.map (fun p => p.1)) : ∃ v, alGet l k = some v := by
  induction l with
  | nil => simp at h
  | cons hd tl ih =>
    rcases List.mem_cons.mp h with h1 | h1
    · exact ⟨hd.2, by simp [alGet, h1]⟩
    · by_cases hk : k = hd.1
      · exact ⟨hd.2, by simp [alGet, hk]⟩
      · simpa [alGet, if_neg hk] using ih h1

theorem mem_alRemove {β : Type} (l : List (String × β)) (k : String) (p : String × β)
    (h : p ∈ alRemove l k) : p ∈ l := by
  induction l with
  | nil => simp [alRemove] at h
  | cons hd tl ih =>
    by_cases hk : k = hd.1
    · simp only [alRemove] at h
      rw [if_pos (by simpa using hk)] at h
      exact List.mem_cons_of_mem _ h
    · simp only [alRemove] at h
      rw [if_neg (by simpa using hk)] at h
      rcases List.mem_cons.mp h with h1 | h1
      · exact h1 ▸ List.mem_cons_self _ _
      · exact List.mem_cons_of_mem _ (ih h1)

/-! ### Preservation of the key invariant by the public operations -/

theorem keysMatch_nil : KeysMatch ([] : StorageMap) := by
  intro p hp
  simp at hp

theorem keysMatch_alInsert (m : StorageMap) (it : StorageItem) (k : String)
    (hm : KeysMatch m) (hk : it.key = k) : KeysMatch (alInsert m k it) := by
  intro p hp
  rcases mem_alInsert _ _ _ _ hp with h | h
  · rw [h]
    exact hk
  · exact hm p h

theorem keysMatch_insert (m : StorageMap) (it : StorageItem) (hm : KeysMatch m) :
    KeysMatch (Storage.insert m it) :=
  keysMatch_alInsert m it it.key hm rfl

theorem keysMatch_alRemove (m : StorageMap) (k : String) (hm : KeysMatch m) :
    KeysMatch (alRemove m k) := by
  intro p hp
  exact hm p (mem_alRemove _ _ _ hp)

theorem updateObjectWith_key (it : StorageItem) (encoded : Option (List Nat)) :
    ((updateObjectWith it encoded).2).key = it.key := by
  cases encoded <;> rfl

theorem keysMatch_updInner (m : StorageMap) (k : String) (encoded : Option (List Nat))
    (hm : KeysMatch m) : KeysMatch (Storage.update_inner_objectE m k encoded).2 := by
  unfold Storage.update_inner_objectE
  cases hget : alGet m k with
  | none => exact hm
  | some item =>
    simp only
    apply keysMatch_alInsert _ _ _ hm
    rw [updateObjectWith_key]
    exact hm (k, item) (alGet_mem _ _ _ hget)

theorem keysMatch_load_items (d : Disk) :
    ∀ (ids : List String) (acc : StorageMap), KeysMatch acc →
      KeysMatch (load_items ids acc d).2 := by
  intro ids
  induction ids with
  | nil => intro acc h; exact h
  | cons item_id rest ih =>
    intro acc h
    simp only [load_items]
    cases hli : load_item d item_id with
    | ok it => exact ih _ (keysMatch_insert acc it h)
    | error e => exact h

theorem keysMatch_load (m : StorageMap) (d : Disk) : KeysMatch (Storage.load m d).2 := by
  unfold Storage.load
  cases hsi : load_storage_info d with
  | ok si => exact keysMatch_load_items d _ _ keysMatch_nil
  | error e => exact keysMatch_nil

theorem keysMatch_exec (s : StorageMap × Disk) (o : Op) (h : KeysMatch s.1) :
    KeysMatch (exec_op s o).1 := by
  obtain ⟨m, d⟩ := s
  cases o with
  | ins it => exact keysMatch_insert m it h
  | upd it => exact keysMatch_insert m it h
  | rem k => exact keysMatch_alRemove m k h
  | clr => exact keysMatch_nil
  | updInner k enc => exact keysMatch_updInner m k enc h
  | fl => exact h
  | ld => exact keysMatch_load m d

theorem keysMatch_foldl (ops : List Op) :
    ∀ s : StorageMap × Disk, KeysMatch s.1 → KeysMatch (ops.foldl exec_op s).1 := by
  induction ops with
  | nil => intro s h; exact h
  | cons o rest ih =>
    intro s h
    exact ih (exec_op s o) (keysMatch_exec s o h)

theorem keysMatch_runOps (ops : List Op) : KeysMatch (runOps ops).1 :=
  keysMatch_foldl ops ([], Disk.empty) keysMatch_nil

/-- Claim C4: in every state reachable via the public operations, every
key returned by `keys()` maps under `get` to an item whose own `key`
field equals the map key. -/
theorem reachable_key_matches_item_key (s : StorageMap × Disk) (h : Reachable s) :
    ∀ k ∈ Storage.keys s.1, ∃ it, Storage.get s.1 k = some it ∧ it.key = k := by
  obtain ⟨ops, hops⟩ := h
  intro k hk
  have hkm : KeysMatch s.1 := hops ▸ keysMatch_runOps ops
  simp only [Storage.keys] at hk
  obtain ⟨v, hv⟩ := alGet_isSome_of_mem_keys s.1 k hk
  exact ⟨v, hv, hkm (k, v) (alGet_mem _ _ _ hv)⟩

/-- A sample item used to instantiate the quantified theorems. -/
def demoItem1 : StorageItem :=
  { id := "i", key := "k", version := 0, data := [1], item_type := .Custom,
    description := none, tags := none, metafields := none, expires_on := none,
    persistence := .Memory, redundancy := 0 }

/-- Witness for claim C4 at the concrete reachable state obtained by one
insert. -/
theorem reachable_key_matches_item_key_witness :
    ∃ it, Storage.get (runOps [Op.ins demoItem1]).1 "k" = some it ∧ it.key = "k" :=
  reachable_key_matches_item_key (runOps [Op.ins demoItem1])
    ⟨[Op.ins demoItem1], rfl⟩ "k" (by decide)

/-- Claim C7: `update_object` returns true exactly when encoding with the
default codec succeeds, and modifies no field other than `data`. -/
theorem update_object_spec {α : Type} (enc : α → Option (List Nat))
    (it : StorageItem) (obj : α) :
    (StorageItem.update_object enc it obj).1
        = (encode_to_binary enc obj StrorageCodecType.default).isSome
    ∧ ((StorageItem.update_object enc it obj).2).id = it.id
    ∧ ((StorageItem.update_object enc it obj).2).key = it.key
    ∧ ((StorageItem.update_object enc it obj).2).version = it.version
    ∧ ((StorageItem.update_object enc it obj).2).item_type = it.item_type
    ∧ ((StorageItem.update_object enc it obj).2).description = it.description
    ∧ ((StorageItem.update_object enc it obj).2).tags = it.tags
    ∧ ((StorageItem.update_object enc it obj).2).metafields = it.metafields
    ∧ ((StorageItem.update_object enc it obj).2).expires_on = it.expires_on
    ∧ ((StorageItem.update_object enc it obj).2).persistence = it.persistence
    ∧ ((StorageItem.update_object enc it obj).2).redundancy = it.redundancy := by
  unfold StorageItem.update_object updateObjectWith
  cases encode_to_binary enc obj StrorageCodecType.default <;> simp

/-- Claim C10: `update_inner_object` returns true exactly when the key is
present, and when encoding fails the map (hence the stored data) is left
unchanged while the return value is still governed only by presence. -/
theorem update_inner_object_spec {α : Type} (enc : α → Option (List Nat))
    (m : StorageMap) (key : String) (obj : α) :
    (Storage.update_inner_object enc m key obj).1 = (Storage.get m key).isSome
    ∧ (encode_to_binary enc obj StrorageCodecType.default = none →
        (Storage.update_inner_object enc m key obj).2 = m) := by
  unfold Storage.update_inner_object Storage.update_inner_objectE Storage.get
  constructor
  · cases alGet m key <;> simp
  · intro hnone
    rw [hnone]
    cases hget : alGet m key with
    | none => simp
    | some item =>
      simp only [updateObjectWith]
      exact alInsert_of_get_eq m key item hget

/-- Witness for claim C10 with an encoder that fails, showing the call
still returns true on a present key and leaves the map unchanged. -/
theorem update_inner_object_spec_witness :
    (Storage.update_inner_object (fun _ : Unit => (none : Option (List Nat)))
        [("k", demoItem1)] "k" ()).1 = (Storage.get [("k", demoItem1)] "k").isSome
    ∧ (Storage.update_inner_object (fun _ : Unit => (none : Option (List Nat)))
        [("k", demoItem1)] "k" ()).2 = [("k", demoItem1)] :=
  ⟨(update_inner_object_spec (fun _ : Unit => none) [("k", demoItem1)] "k" ()).1,
   (update_inner_object_spec (fun _ : Unit => none) [("k", demoItem1)] "k" ()).2 rfl⟩

/-! ### The loading loop -/

theorem load_items_mem (d : Disk) :
    ∀ (ids : List String) (acc : StorageMap) (p : String × StorageItem),
      p ∈ (load_items ids acc d).2 →
      p ∈ acc ∨ ∃ item_id, item_id ∈ ids ∧ load_item d item_id = .ok p.2 ∧ p.1 = p.2.key := by
  intro ids
  induction ids with
  | nil =>
    intro acc p hp
    exact Or.inl hp
  | cons item_id rest ih =>
    intro acc p hp
    simp only [load_items] at hp
    cases hli : load_item d item_id with
    | error e =>
      rw [hli] at hp
      exact Or.inl hp
    | ok it =>
      rw [hli] at hp
      rcases ih (Storage.insert acc it) p hp with h1 | h1
      · rcases mem_alInsert _ _ _ _ h1 with h2 | h2
        · right
          refine ⟨item_id, List.mem_cons_self _ _, ?_, ?_⟩
          · rw [h2]
            exact hli
          · rw [h2]
        · exact Or.inl h2
      · obtain ⟨id', hid', h'⟩ := h1
        exact Or.inr ⟨id', List.mem_cons_of_mem _ hid', h'⟩

theorem load_items_isSome (d : Disk) (k : String) :
    ∀ (ids : List String) (acc : StorageMap), (alGet acc k).isSome = true →
      (alGet (load_items ids acc d).2 k).isSome = true := by
  intro ids
  induction ids with
  | nil => intro acc h; exact h
  | cons item_id rest ih =>
    intro acc h
    simp only [load_items]
    cases hli : load_item d item_id with
    | error e => exact h
    | ok it => exact ih _ (alGet_isSome_alInsert acc k it.key it h)

theorem load_items_ok_all (d : Disk) :
    ∀ (ids : List String) (acc : StorageMap),
      exceptIsOk (load_items ids acc d).1 = true →
      ∀ item_id ∈ ids, ∃ it, load_item d item_id = .ok it
        ∧ (alGet (load_items ids acc d).2 it.key).isSome = true := by
  intro ids
  induction ids with
  | nil =>
    intro acc _ item_id hid
    simp at hid
  | cons id0 rest ih =>
    intro acc h item_id hid
    simp only [load_items] at h ⊢
    cases hli : load_item d id0 with
    | error e =>
      rw [hli] at h
      simp [exceptIsOk] at h
    | ok it0 =>
      rw [hli] at h
      dsimp only at h ⊢
      rcases List.mem_cons.mp hid with h1 | h1
      · subst h1
        refine ⟨it0, hli, ?_⟩
        apply load_items_isSome
        rw [Storage.insert, alGet_alInsert_self]
        rfl
      · exact ih _ h item_id h1

/-- Claim C9: `load` discards the prior in-memory state entirely; when the
manifest is missing or undecodable the map ends empty with an Ok result,
and when `load` returns Ok the map holds exactly items decoded from the
blobs of the manifest entries, each stored under its own key. -/
theorem load_discards_memory_state (m0 : StorageMap) (d : Disk) :
    (∀ m1, Storage.load m0 d = Storage.load m1 d)
    ∧ ((load_storage_info d).toOption = none → Storage.load m0 d = (.ok (), []))
    ∧ (exceptIsOk (Storage.load m0 d).1 = true →
        (∀ p ∈ (Storage.load m0 d).2,
          p.1 = p.2.key ∧ ∃ item_id, item_id ∈ manifest_ids d ∧ load_item d item_id = .ok p.2)
        ∧ (∀ item_id ∈ manifest_ids d,
            ∃ it, load_item d item_id = .ok it
              ∧ (alGet (Storage.load m0 d).2 it.key).isSome = true)) := by
  refine ⟨fun m1 => rfl, ?_, ?_⟩
  · intro h
    unfold Storage.load
    cases hsi : load_storage_info d with
    | ok si => rw [hsi] at h; simp [Except.toOption] at h
    | error e => simp [Storage.clear]
  · intro hok
    unfold Storage.load at hok ⊢
    unfold manifest_ids
    cases hsi : load_storage_info d with
    | error e =>
      constructor
      · intro p hp
        simp [Storage.clear] at hp
      · intro item_id hid
        simp at hid
    | ok si =>
      rw [hsi] at hok
      dsimp only at hok ⊢
      constructor
      · intro p hp
        rcases load_items_mem d _ _ p hp with h1 | h1
        · simp [Storage.clear] at h1
        · obtain ⟨id', hid', hload, hkey⟩ := h1
          exact ⟨hkey, id', hid', hload⟩
      · intro item_id hid
        exact load_items_ok_all d _ _ hok item_id hid

/-- A sample persisted state: a manifest with one entry and the matching
blob file. -/
def demoDisk : Disk :=
  { info_file := some (encode_file .StrorageInfo (.infoP [("k", ("i", 0))])),
    blobs := [("i", encode_file .StrorageItem (.itemP demoItem1))] }

/-- Witness for claim C9 on a concrete one-item manifest. -/
theorem load_discards_memory_state_witness :
    ∃ it, load_item demoDisk "i" = .ok it
      ∧ (alGet (Storage.load [] demoDisk).2 it.key).isSome = true :=
  ((load_discards_memory_state [] demoDisk).2.2 (by decide)).2 "i" (by decide)

/-! ### Frame parsing -/

theorem isPanic_exists {α : Type} (r : PResult α) (h : r.isPanic = true) :
    ∃ msg, r = .panicked msg := by
  cases r with
  | ok a => simp [PResult.isPanic] at h
  | err e => simp [PResult.isPanic] at h
  | panicked msg => exact ⟨msg, rfl⟩

theorem packetTag_fromU8_panic (v : Nat) (h : validPacketTag v = false) :
    (StroragePacketType.fromU8 v).isPanic = true := by
  rcases v with _ | _ | _ | _ | v
  · rfl
  · simp [validPacketTag] at h
  · simp [validPacketTag] at h
  · simp [validPacketTag] at h
  · rfl

theorem packetTag_fromU8_ok (v : Nat) (h : validPacketTag v = true) :
    ∃ pt, StroragePacketType.fromU8 v = .ok pt := by
  rcases v with _ | _ | _ | _ | v
  · simp [validPacketTag] at h
  · exact ⟨_, rfl⟩
  · exact ⟨_, rfl⟩
  · exact ⟨_, rfl⟩
  · simp [validPacketTag] at h

theorem codecTag_fromU8_panic (v : Nat) (h : validCodecTag v = false) :
    (StrorageCodecType.fromU8 v).isPanic = true := by
  rcases v with _ | _ | _ | _ | _ | _ | v
  · rfl
  · simp [validCodecTag] at h
  · simp [validCodecTag] at h
  · simp [validCodecTag] at h
  · simp [validCodecTag] at h
  · simp [validCodecTag] at h
  · rfl

theorem codecTag_fromU8_ok (v : Nat) (h : validCodecTag v = true) :
    ∃ ct, StrorageCodecType.fromU8 v = .ok ct := by
  rcases v with _ | _ | _ | _ | _ | _ | v
  · simp [validCodecTag] at h
  · exact ⟨_, rfl⟩
  · exact ⟨_, rfl⟩
  · exact ⟨_, rfl⟩
  · exact ⟨_, rfl⟩
  · exact ⟨_, rfl⟩
  · simp [validCodecTag] at h

/-- Claim C5 (amended): parsing fails with an error on a buffer shorter
than the 11-byte header or whose declared big-endian length differs from
the buffer length; it succeeds and returns the payload after the header
when the lengths agree, the buffer holds at least the header, and both
tag bytes are known (unknown tags panic instead, see the counterexample). -/
theorem parse_packet_length_spec (buf : List Byte) :
    (buf.length < STORAGE_PACKET_HEADER_SIZE → ∃ msg, parse_packet buf = .err msg)
    ∧ (STORAGE_PACKET_HEADER_SIZE ≤ buf.length →
        u64_from_be_bytes (buf.take 8) ≠ buf.length → ∃ msg, parse_packet buf = .err msg)
    ∧ (STORAGE_PACKET_HEADER_SIZE ≤ buf.length →
        u64_from_be_bytes (buf.take 8) = buf.length →
        validPacketTag (byteAt buf 8) = true → validCodecTag (byteAt buf 10) = true →
        ∃ h, parse_packet buf
          = .ok { header := h, data := buf.drop STORAGE_PACKET_HEADER_SIZE }) := by
  refine ⟨?_, ?_, ?_⟩
  · intro hlt
    have hh : parse_packet_header buf
        = .err ("Cannot parse packet header, invalid buffer size: " ++ toString buf.length) := by
      simp only [parse_packet_header]
      rw [if_pos hlt]
    exact ⟨"Cannot parse packet header, invalid buffer size: " ++ toString buf.length,
      by simp only [parse_packet, hh]⟩
  · intro hge hne
    have hh : ∃ msg, parse_packet_header buf = .err msg := by
      refine ⟨"Invalid buffer size, expected: " ++ toString (u64_from_be_bytes (buf.take 8)) ++
        ", found: " ++ toString buf.length, ?_⟩
      simp only [parse_packet_header]
      rw [if_neg (Nat.not_lt.mpr hge), if_pos (Ne.symm hne)]
    obtain ⟨msg, hh⟩ := hh
    exact ⟨msg, by simp only [parse_packet, hh]⟩
  · intro hge heq hpt hct
    obtain ⟨pt, hpt'⟩ := packetTag_fromU8_ok _ hpt
    obtain ⟨ct, hct'⟩ := codecTag_fromU8_ok _ hct
    have hh : parse_packet_header buf
        = .ok { packet_length := u64_from_be_bytes (buf.take 8), packet_type := pt,
                packet_version := byteAt buf 9, codec_type := ct } := by
      simp only [parse_packet_header]
      rw [if_neg (Nat.not_lt.mpr hge), if_neg (fun hc => hc heq.symm)]
      rw [hpt']
      dsimp only
      rw [hct']
    refine ⟨{ packet_length := u64_from_be_bytes (buf.take 8), packet_type := pt,
              packet_version := byteAt buf 9, codec_type := ct }, ?_⟩
    simp only [parse_packet, hh]

/-- Witness for claim C5 on concrete buffers: a 3-byte buffer fails with
an error, and a well-formed 13-byte frame parses to its payload. -/
theorem parse_packet_length_spec_witness :
    (∃ msg, parse_packet [(1 : Byte), 2, 3] = .err msg)
    ∧ (∃ h, parse_packet [(0 : Byte), 0, 0, 0, 0, 0, 0, 13, 1, 1, 1, 42, 43]
        = .ok { header := h,
                data := List.drop STORAGE_PACKET_HEADER_SIZE
                  [(0 : Byte), 0, 0, 0, 0, 0, 0, 13, 1, 1, 1, 42, 43] }) :=
  ⟨(parse_packet_length_spec [(1 : Byte), 2, 3]).1 (by decide),
   (parse_packet_length_spec [(0 : Byte), 0, 0, 0, 0, 0, 0, 13, 1, 1, 1, 42, 43]).2.2
     (by decide) (by decide) (by decide) (by decide)⟩

/-- A length-11 buffer whose declared length matches but whose packet
type byte is the unknown tag 99. -/
def badPacketTagBuf : List Byte := [0, 0, 0, 0, 0, 0, 0, 11, 99, 1, 1]

/-- Claim C5 counterexample: the declared length equals the buffer
length, yet parsing does not succeed, because the unknown packet tag 99
panics inside the `From<u8>` conversion. -/
theorem parse_packet_length_agreement_not_sufficient :
    u64_from_be_bytes (badPacketTagBuf.take 8) = badPacketTagBuf.length
    ∧ (parse_packet badPacketTagBuf).isOk = false := by
  decide

/-- Claim C6 (amended): a frame of agreeing length whose packet type byte
is outside 1..3, or whose codec byte is outside 1..5, makes parsing
panic; the process aborts instead of the error being returned as a load
failure result (and the frame is never silently accepted). -/
theorem parse_packet_unknown_tag_panics (buf : List Byte)
    (hge : STORAGE_PACKET_HEADER_SIZE ≤ buf.length)
    (heq : u64_from_be_bytes (buf.take 8) = buf.length)
    (hbad : validPacketTag (byteAt buf 8) = false ∨ validCodecTag (byteAt buf 10) = false) :
    (parse_packet buf).isPanic = true := by
  have hh : (parse_packet_header buf).isPanic = true := by
    simp only [parse_packet_header]
    rw [if_neg (Nat.not_lt.mpr hge), if_neg (fun hc => hc heq.symm)]
    by_cases hpt : validPacketTag (byteAt buf 8) = true
    · obtain ⟨pt, hpt'⟩ := packetTag_fromU8_ok _ hpt
      rw [hpt']
      dsimp only
      have hcb : validCodecTag (byteAt buf 10) = false := by
        rcases hbad with hb | hb
        · rw [hpt] at hb
          simp at hb
        · exact hb
      obtain ⟨msg, hmsg⟩ := isPanic_exists _ (codecTag_fromU8_panic _ hcb)
      rw [hmsg]
      rfl
    · have hf : validPacketTag (byteAt buf 8) = false := by
        cases hvb : validPacketTag (byteAt buf 8) with
        | false => rfl
        | true => exact absurd hvb hpt
      obtain ⟨msg, hmsg⟩ := isPanic_exists _ (packetTag_fromU8_panic _ hf)
      rw [hmsg]
      rfl
  obtain ⟨msg, hmsg⟩ := isPanic_exists _ hh
  simp only [parse_packet, hmsg]
  rfl

/-- Witness for claim C6 on a concrete buffer with the unknown packet
tag 7. -/
theorem parse_packet_unknown_tag_panics_witness :
    (parse_packet [(0 : Byte), 0, 0, 0, 0, 0, 0, 11, 7, 1, 1]).isPanic = true :=
  parse_packet_unknown_tag_panics [(0 : Byte), 0, 0, 0, 0, 0, 0, 11, 7, 1, 1]
    (by decide) (by decide) (Or.inl (by decide))

/-- A length-11 buffer with valid packet type 2 but unknown codec tag 77. -/
def badCodecTagBuf : List Byte := [0, 0, 0, 0, 0, 0, 0, 11, 2, 1, 77]

/-- Claim C6 counterexample: the unknown codec tag makes parsing panic
(process abort); the outcome is not an error result, so it cannot bubble
up as a failure result of loading the file. -/
theorem unknown_tag_is_not_error_result :
    (parse_packet badCodecTagBuf).isPanic = true
    ∧ (parse_packet badCodecTagBuf).isErr = false := by
  decide


/-! ### The flush write loop -/

theorem flush_step_none (m : StorageMap) (pi : Option StorageInfo) (acc : FlushResult)
    (e : String × (String × Nat)) (h : Storage.get m e.1 = none) :
    flush_step m pi acc e = acc := by
  unfold flush_step
  rw [h]

theorem flush_step_write (m : StorageMap) (pi : Option StorageInfo) (acc : FlushResult)
    (e : String × (String × Nat)) (item : StorageItem)
    (h : Storage.get m e.1 = some item)
    (hnp : needs_persist pi item.key e.2.1 e.2.2 = true) :
    flush_step m pi acc e
      = { disk := persist_item acc.disk item, written := acc.written ++ [e.1] } := by
  unfold flush_step
  rw [h]
  dsimp only
  rw [if_pos hnp]

theorem flush_step_skip (m : StorageMap) (pi : Option StorageInfo) (acc : FlushResult)
    (e : String × (String × Nat)) (item : StorageItem)
    (h : Storage.get m e.1 = some item)
    (hnp : needs_persist pi item.key e.2.1 e.2.2 = false) :
    flush_step m pi acc e = acc := by
  unfold flush_step
  rw [h]
  dsimp only
  rw [if_neg (by rw [hnp]; exact Bool.false_ne_true)]

/-- The key recorded by one write-loop iteration when it rewrites a blob. -/
def write_key (m : StorageMap) (persisted_info : Option StorageInfo)
    (e : String × (String × Nat)) : Option String :=
  match Storage.get m e.1 with
  | some item =>
    if needs_persist persisted_info item.key e.2.1 e.2.2 then some e.1 else none
  | none => none

theorem write_key_none (m : StorageMap) (pi : Option StorageInfo)
    (e : String × (String × Nat)) (h : Storage.get m e.1 = none) :
    write_key m pi e = none := by
  unfold write_key
  rw [h]

theorem write_key_write (m : StorageMap) (pi : Option StorageInfo)
    (e : String × (String × Nat)) (item : StorageItem)
    (h : Storage.get m e.1 = some item)
    (hnp : needs_persist pi item.key e.2.1 e.2.2 = true) :
    write_key m pi e = some e.1 := by
  unfold write_key
  rw [h]
  dsimp only
  rw [if_pos hnp]

theorem write_key_skip (m : StorageMap) (pi : Option StorageInfo)
    (e : String × (String × Nat)) (item : StorageItem)
    (h : Storage.get m e.1 = some item)
    (hnp : needs_persist pi item.key e.2.1 e.2.2 = false) :
    write_key m pi e = none := by
  unfold write_key
  rw [h]
  dsimp only
  rw [if_neg (by rw [hnp]; exact Bool.false_ne_true)]

theorem flush_loop_written (m : StorageMap) (pi : Option StorageInfo) :
    ∀ (entries : List (String × (String × Nat))) (acc : FlushResult),
      (entries.foldl (flush_step m pi) acc).written
        = acc.written ++ entries.filterMap (write_key m pi) := by
  intro entries
  induction entries with
  | nil => intro acc; simp
  | cons e rest ih =>
    intro acc
    rw [List.foldl_cons]
    cases hget : Storage.get m e.1 with
    | none =>
      rw [flush_step_none m pi acc e hget, ih,
        List.filterMap_cons_none (write_key_none m pi e hget)]
    | some item =>
      cases hnp : needs_persist pi item.key e.2.1 e.2.2 with
      | true =>
        rw [flush_step_write m pi acc e item hget hnp, ih,
          List.filterMap_cons_some (write_key_write m pi e item hget hnp)]
        simp
      | false =>
        rw [flush_step_skip m pi acc e item hget hnp, ih,
          List.filterMap_cons_none (write_key_skip m pi e item hget hnp)]

theorem flush_loop_info_file (m : StorageMap) (pi : Option StorageInfo) :
    ∀ (entries : List (String × (String × Nat))) (acc : FlushResult),
      (entries.foldl (flush_step m pi) acc).disk.info_file = acc.disk.info_file := by
  intro entries
  induction entries with
  | nil => intro acc; rfl
  | cons e rest ih =>
    intro acc
    rw [List.foldl_cons, ih]
    cases hget : Storage.get m e.1 with
    | none => rw [flush_step_none m pi acc e hget]
    | some item =>
      cases hnp : needs_persist pi item.key e.2.1 e.2.2 with
      | true =>
        rw [flush_step_write m pi acc e item hget hnp]
        rfl
      | false => rw [flush_step_skip m pi acc e item hget hnp]

theorem flush_loop_blobGet_frozen (m : StorageMap) (pi : Option StorageInfo) (X : String) :
    ∀ (entries : List (String × (String × Nat))) (acc : FlushResult),
      (∀ e ∈ entries, ∀ item, Storage.get m e.1 = some item →
        needs_persist pi item.key e.2.1 e.2.2 = true → item.id ≠ X) →
      alGet (entries.foldl (flush_step m pi) acc).disk.blobs X = alGet acc.disk.blobs X := by
  intro entries
  induction entries with
  | nil => intro acc _; rfl
  | cons e rest ih =>
    intro acc h
    rw [List.foldl_cons, ih _ (fun e' he' => h e' (List.mem_cons_of_mem _ he'))]
    cases hget : Storage.get m e.1 with
    | none => rw [flush_step_none m pi acc e hget]
    | some item =>
      cases hnp : needs_persist pi item.key e.2.1 e.2.2 with
      | true =>
        rw [flush_step_write m pi acc e item hget hnp]
        have hne : item.id ≠ X := h e (List.mem_cons_self _ _) item hget hnp
        exact alGet_alInsert_ne _ _ _ _ (fun hX => hne hX.symm)
      | false => rw [flush_step_skip m pi acc e item hget hnp]

theorem flush_loop_blob_members (m : StorageMap) (pi : Option StorageInfo) :
    ∀ (entries : List (String × (String × Nat))) (acc : FlushResult)
      (nf : String × Frame), nf ∈ (entries.foldl (flush_step m pi) acc).disk.blobs →
      nf ∈ acc.disk.blobs
      ∨ ∃ k it, Storage.get m k = some it
          ∧ nf = (it.id, encode_file .StrorageItem (.itemP it)) := by
  intro entries
  induction entries with
  | nil => intro acc nf h; exact Or.inl h
  | cons e rest ih =>
    intro acc nf h
    rw [List.foldl_cons] at h
    rcases ih _ nf h with h1 | h1
    · cases hget : Storage.get m e.1 with
      | none =>
        rw [flush_step_none m pi acc e hget] at h1
        exact Or.inl h1
      | some item =>
        cases hnp : needs_persist pi item.key e.2.1 e.2.2 with
        | true =>
          rw [flush_step_write m pi acc e item hget hnp] at h1
          rcases mem_alInsert _ _ _ _ h1 with h2 | h2
          · exact Or.inr ⟨e.1, item, hget, h2⟩
          · exact Or.inl h2
        | false =>
          rw [flush_step_skip m pi acc e item hget hnp] at h1
          exact Or.inl h1
    · exact Or.inr h1

/-! ### The manifest construction -/

theorem info_step_absent (m : StorageMap) (acc : StorageInfo) (k : String)
    (h : Storage.get m k = none) : info_step m acc k = acc := by
  unfold info_step
  rw [h]

theorem info_step_present (m : StorageMap) (acc : StorageInfo) (k : String)
    (item : StorageItem) (h : Storage.get m k = some item) :
    info_step m acc k = alInsert acc k (item.id, item.version) := by
  unfold info_step
  rw [h]

theorem info_fold_members (m : StorageMap) :
    ∀ (ks : List String) (acc : StorageInfo) (e : String × (String × Nat)),
      e ∈ ks.foldl (info_step m) acc →
      e ∈ acc ∨ ∃ it, Storage.get m e.1 = some it ∧ e.2 = (it.id, it.version) := by
  intro ks
  induction ks with
  | nil => intro acc e he; exact Or.inl he
  | cons k rest ih =>
    intro acc e he
    rw [List.foldl_cons] at he
    rcases ih _ e he with h1 | h1
    · cases hget : Storage.get m k with
      | none =>
        rw [info_step_absent m acc k hget] at h1
        exact Or.inl h1
      | some item =>
        rw [info_step_present m acc k item hget] at h1
        rcases mem_alInsert _ _ _ _ h1 with h2 | h2
        · right
          refine ⟨item, ?_, ?_⟩
          · rw [h2]; exact hget
          · rw [h2]
        · exact Or.inl h2
    · exact Or.inr h1

theorem info_to_persist_members (m : StorageMap) (e : String × (String × Nat))
    (he : e ∈ info_to_persist m) :
    ∃ it, Storage.get m e.1 = some it ∧ e.2 = (it.id, it.version) := by
  rcases info_fold_members m _ _ e he with h | h
  · simp at h
  · exact h

theorem info_fold_aux (m : StorageMap) :
    ∀ (l : StorageMap) (acc : StorageInfo),
      (∀ p ∈ l, Storage.get m p.1 = some p.2) →
      (l.map (fun p => p.1)).Nodup →
      (∀ p ∈ l, alGet acc p.1 = none) →
      (l.map (fun p => p.1)).foldl (info_step m) acc
        = acc ++ l.map (fun p => (p.1, (p.2.id, p.2.version))) := by
  intro l
  induction l with
  | nil => intro acc _ _ _; simp
  | cons p rest ih =>
    intro acc hget hnd hacc
    simp only [List.map_cons, List.foldl_cons]
    have hnd' := List.nodup_cons.mp hnd
    rw [info_step_present m acc p.1 p.2 (hget p (List.mem_cons_self _ _)),
      alInsert_eq_append _ _ _ (hacc p (List.mem_cons_self _ _))]
    rw [ih (acc ++ [(p.1, (p.2.id, p.2.version))])
      (fun q hq => hget q (List.mem_cons_of_mem _ hq)) hnd'.2 ?_]
    · simp
    · intro q hq
      rw [alGet_append]
      rw [hacc q (List.mem_cons_of_mem _ hq)]
      have hqe : q.1 ≠ p.1 := by
        intro hc
        have hmm : q.1 ∈ List.map (fun r => r.1) rest :=
          List.mem_map_of_mem (fun r => r.1) hq
        rw [hc] at hmm
        exact hnd'.1 hmm
      simp [alGet, hqe]

theorem info_to_persist_eq (m : StorageMap) (h : NodupKeys m) :
    info_to_persist m = m.map (fun p => (p.1, (p.2.id, p.2.version))) := by
  unfold info_to_persist Storage.keys
  rw [info_fold_aux m m []
    (fun p hp => alGet_of_mem_nodup m p h hp) h (fun p _ => rfl)]
  simp

theorem info_to_persist_get (m : StorageMap) (p : String × StorageItem)
    (h : NodupKeys m) (hp : p ∈ m) :
    alGet (info_to_persist m) p.1 = some (p.2.id, p.2.version) := by
  rw [info_to_persist_eq m h]
  have hmem : (p.1, (p.2.id, p.2.version))
      ∈ m.map (fun q => (q.1, (q.2.id, q.2.version))) :=
    List.mem_map_of_mem _ hp
  have hnd : ((m.map (fun q => (q.1, (q.2.id, q.2.version)))).map
      (fun q => q.1)).Nodup := by
    rw [List.map_map]
    exact h
  exact alGet_of_mem_nodup _ _ hnd hmem

/-! ### The persistence decision -/

theorem needs_persist_absent (prev : StorageInfo) (kk id : String) (v : Nat)
    (h : alGet prev kk = none) : needs_persist (some prev) kk id v = true := by
  unfold needs_persist
  dsimp only
  rw [h]

theorem needs_persist_present (prev : StorageInfo) (pv : String × Nat)
    (kk id : String) (v : Nat) (h : alGet prev kk = some pv) :
    needs_persist (some prev) kk id v
      = (decide (id ≠ pv.1) || decide (pv.2 < v)) := by
  unfold needs_persist
  dsimp only
  rw [h]

theorem needs_persist_false_elim (pi : Option StorageInfo) (kk id : String) (v : Nat)
    (h : needs_persist pi kk id v = false) :
    ∃ prev pv, pi = some prev ∧ alGet prev kk = some pv ∧ id = pv.1 ∧ v ≤ pv.2 := by
  cases pi with
  | none => simp [needs_persist] at h
  | some prev =>
    cases hpv : alGet prev kk with
    | none => rw [needs_persist_absent prev kk id v hpv] at h; simp at h
    | some pv =>
      rw [needs_persist_present prev pv kk id v hpv] at h
      simp at h
      exact ⟨prev, pv, rfl, hpv, h.1, Nat.not_lt.mp (by simpa using h.2)⟩

theorem needs_persist_true_iff (pi : Option StorageInfo) (kk id : String) (v : Nat) :
    needs_persist pi kk id v = true ↔
      (pi = none ∨ ∃ prev, pi = some prev
        ∧ (alGet prev kk = none
          ∨ ∃ pv, alGet prev kk = some pv ∧ (pv.1 ≠ id ∨ pv.2 < v))) := by
  cases pi with
  | none => simp [needs_persist]
  | some prev =>
    cases hpv : alGet prev kk with
    | none =>
      rw [needs_persist_absent prev kk id v hpv]
      constructor
      · intro _
        exact Or.inr ⟨prev, rfl, Or.inl hpv⟩
      · intro _
        rfl
    | some pv =>
      rw [needs_persist_present prev pv kk id v hpv]
      constructor
      · intro h
        simp at h
        refine Or.inr ⟨prev, rfl, Or.inr ⟨pv, hpv, ?_⟩⟩
        rcases h with h | h
        · exact Or.inl (fun hc => h hc.symm)
        · exact Or.inr h
      · intro h
        rcases h with h | ⟨prev', hprev', hcase⟩
        · simp at h
        · have hpe : prev' = prev := (Option.some.inj hprev').symm
          subst hpe
          rcases hcase with hc | ⟨pv', hpv', hcond⟩
          · rw [hpv] at hc; simp at hc
          · have hve : pv' = pv := by rw [hpv] at hpv'; exact (Option.some.inj hpv').symm
            subst hve
            simp
            rcases hcond with hc | hc
            · exact Or.inl (fun he => hc he.symm)
            · exact Or.inr hc

/-- The rewrite condition of claim C2: no readable prior manifest, key
absent from it, id changed, or version strictly increased. -/
def rewrite_condition (prev : Option StorageInfo) (k : String) (it : StorageItem) : Prop :=
  prev = none
  ∨ ∃ pi, prev = some pi
      ∧ (alGet pi k = none
        ∨ ∃ pv, alGet pi k = some pv ∧ (pv.1 ≠ it.id ∨ pv.2 < it.version))

theorem rewrite_condition_iff (pi : Option StorageInfo) (k : String) (it : StorageItem) :
    rewrite_condition pi k it ↔ needs_persist pi k it.id it.version = true :=
  (needs_persist_true_iff pi k it.id it.version).symm

/-- Claim C2: during flush, the blob of a snapshot key is rewritten if
and only if no prior manifest could be read, the key is absent from the
prior manifest, the item id differs from the recorded one, or the item
version is strictly greater than the recorded one. -/
theorem flush_rewrites_iff (m : StorageMap) (d : Disk) (k : String) (it : StorageItem)
    (hkm : KeysMatch m) (hnk : NodupKeys m) (hget : Storage.get m k = some it) :
    k ∈ (Storage.flush m d).written
      ↔ rewrite_condition ((load_storage_info d).toOption) k it := by
  have hitkey : it.key = k := hkm (k, it) (alGet_mem _ _ _ hget)
  have hwr : (Storage.flush m d).written
      = (info_to_persist m).filterMap (write_key m ((load_storage_info d).toOption)) := by
    unfold Storage.flush
    rw [flush_loop_written]
    rfl
  rw [hwr, List.mem_filterMap, rewrite_condition_iff]
  constructor
  · rintro ⟨e, he, hwk⟩
    cases hge : Storage.get m e.1 with
    | none =>
      rw [write_key_none m _ e hge] at hwk
      simp at hwk
    | some item =>
      cases hnp : needs_persist ((load_storage_info d).toOption) item.key e.2.1 e.2.2 with
      | true =>
        rw [write_key_write m _ e item hge hnp] at hwk
        have he1 : e.1 = k := Option.some.inj hwk
        rw [he1, hget] at hge
        have hie : item = it := (Option.some.inj hge).symm
        obtain ⟨it', hit', he2⟩ := info_to_persist_members m e he
        rw [he1, hget] at hit'
        have hie' : it' = it := (Option.some.inj hit').symm
        rw [hie, hitkey, he2, hie'] at hnp
        exact hnp
      | false =>
        rw [write_key_skip m _ e item hge hnp] at hwk
        simp at hwk
  · intro hcond
    refine ⟨(k, (it.id, it.version)), ?_, ?_⟩
    · rw [info_to_persist_eq m hnk]
      exact List.mem_map_of_mem _ (alGet_mem _ _ _ hget)
    · exact write_key_write m _ (k, (it.id, it.version)) it hget (hitkey.symm ▸ hcond)

/-- Witness for claim C2: with no readable prior manifest the concrete
key is rewritten. -/
theorem flush_rewrites_iff_witness :
    "k" ∈ (Storage.flush [("k", demoItem1)] Disk.empty).written :=
  (flush_rewrites_iff [("k", demoItem1)] Disk.empty "k" demoItem1
    (by unfold KeysMatch; decide) (by unfold NodupKeys; decide) (by decide)).mpr
    (Or.inl (by decide))

/-- Claim C3: after a flush no blob file remains whose filename differs
case-insensitively from every in-memory item id; flushing an empty map
leaves the blob directory empty, and in particular the sequence insert,
flush, remove, flush ends with an empty blob directory. Blob deletions
cannot fail in this model, so flush always completes. -/
theorem flush_leaves_no_orphan_blobs :
    (∀ (m : StorageMap) (d : Disk), ∀ nf ∈ (Storage.flush m d).disk.blobs,
        ∃ p ∈ m, asciiLower nf.1 = asciiLower p.2.id)
    ∧ (∀ d : Disk, (Storage.flush [] d).disk.blobs = [])
    ∧ (∀ it : StorageItem,
        (runOps [Op.ins it, Op.fl, Op.rem it.key, Op.fl]).2.blobs = []) := by
  have h2 : ∀ d : Disk, (Storage.flush [] d).disk.blobs = [] := by
    intro d
    unfold Storage.flush
    simp [info_to_persist, Storage.keys, List.filter_eq_nil_iff, blob_keep]
  refine ⟨?_, h2, ?_⟩
  · intro m d nf h
    unfold Storage.flush at h
    rcases flush_loop_blob_members m _ _ _ nf h with h1 | h1
    · have hf := List.mem_filter.mp h1
      have hmem : asciiLower nf.1
          ∈ (info_to_persist m).map (fun e => asciiLower e.2.1) :=
        of_decide_eq_true hf.2
      obtain ⟨e, he, heq⟩ := List.mem_map.mp hmem
      obtain ⟨it, hget, he2⟩ := info_to_persist_members m e he
      refine ⟨(e.1, it), alGet_mem _ _ _ hget, ?_⟩
      rw [← heq, he2]
    · obtain ⟨k, it, hget, rfl⟩ := h1
      exact ⟨(k, it), alGet_mem _ _ _ hget, rfl⟩
  · intro it
    have hrem : Storage.remove (Storage.insert [] it) it.key = [] := by
      simp [Storage.insert, Storage.remove, alInsert, alRemove]
    simp only [runOps, List.foldl, exec_op]
    rw [hrem, h2]

/-- Witness for claim C3 at a concrete one-item map whose flushed blob
directory contains exactly the blob of that item. -/
theorem flush_leaves_no_orphan_blobs_witness :
    ∃ p ∈ [("k", demoItem1)], asciiLower "i" = asciiLower p.2.id :=
  flush_leaves_no_orphan_blobs.1 [("k", demoItem1)] Disk.empty
    ("i", encode_file .StrorageItem (.itemP demoItem1)) (by decide)


/-! ### Flush establishes the manifest and blob invariants -/

theorem alGet_filter_blob_keep (l : List (String × Frame)) (ids : List String) (k : String) :
    alGet (l.filter (blob_keep ids)) k
      = if asciiLower k ∈ ids then alGet l k else none := by
  induction l with
  | nil => simp [alGet]
  | cons hd tl ih =>
    by_cases hpred : blob_keep ids hd = true
    · rw [List.filter_cons_of_pos hpred]
      by_cases hk : k = hd.1
      · have hmem : asciiLower k ∈ ids := by
          rw [hk]
          exact of_decide_eq_true hpred
        have hmem2 : asciiLower hd.1 ∈ ids := by
          rw [← hk]
          exact hmem
        simp [alGet, hk, hmem, hmem2]
      · simp only [alGet, if_neg hk]
        rw [ih]
    · rw [List.filter_cons_of_neg hpred]
      rw [ih]
      by_cases hk : k = hd.1
      · have hmem : ¬ asciiLower k ∈ ids := by
          rw [hk]
          intro hc
          exact hpred (decide_eq_true hc)
        rw [if_neg hmem, if_neg hmem]
      · simp only [alGet, if_neg hk]

theorem flush_disk_info_file (m : StorageMap) (d : Disk) :
    (Storage.flush m d).disk.info_file
      = some (encode_file .StrorageInfo (.infoP (info_to_persist m))) := by
  unfold Storage.flush
  rw [flush_loop_info_file]
  rfl

theorem load_storage_info_flush (m : StorageMap) (d : Disk) :
    load_storage_info (Storage.flush m d).disk = .ok (info_to_persist m) := by
  unfold load_storage_info
  rw [flush_disk_info_file]
  rfl

theorem in_sync_entry_elim (d : Disk) (prev : StorageInfo) (p : String × StorageItem)
    (pv : String × Nat) (h1 : alGet prev p.2.key = some pv) (h2 : p.2.id = pv.1)
    (h3 : p.2.version ≤ pv.2) (h : in_sync_entry d (some prev) p = true) :
    alGet d.blobs p.2.id = some (encode_file .StrorageItem (.itemP p.2)) := by
  unfold in_sync_entry at h
  dsimp only at h
  rw [h1] at h
  dsimp only at h
  rw [if_pos ⟨h2, h3⟩] at h
  exact of_decide_eq_true h

theorem load_item_of_blob (d : Disk) (item_id : String) (it : StorageItem)
    (h : alGet d.blobs item_id = some (encode_file .StrorageItem (.itemP it))) :
    load_item d item_id = .ok it := by
  unfold load_item
  rw [h]
  rfl

theorem flush_blob_get (m : StorageMap) (d : Disk)
    (hnk : NodupKeys m) (hni : NodupIds m) (hins : InSync m d) :
    ∀ p ∈ m, alGet (Storage.flush m d).disk.blobs p.2.id
      = some (encode_file .StrorageItem (.itemP p.2)) := by
  intro p hp
  have hpm : Storage.get m p.1 = some p.2 := alGet_of_mem_nodup m p hnk hp
  have hinfo := info_to_persist_eq m hnk
  have hepmem : (p.1, (p.2.id, p.2.version)) ∈ info_to_persist m := by
    rw [hinfo]
    exact List.mem_map_of_mem _ hp
  cases hnp : needs_persist ((load_storage_info d).toOption) p.2.key p.2.id p.2.version with
  | false =>
    obtain ⟨prev, pv, hprev, hpv, hid, hver⟩ :=
      needs_persist_false_elim _ _ _ _ hnp
    unfold Storage.flush
    rw [flush_loop_blobGet_frozen]
    · dsimp only
      simp only [persist_storage_info]
      rw [alGet_filter_blob_keep]
      rw [if_pos (List.mem_map_of_mem (fun e => asciiLower e.2.1) hepmem)]
      have hise := hins p hp
      rw [hprev] at hise
      exact in_sync_entry_elim d prev p pv hpv hid hver hise
    · intro e he item hgete hnpe
      obtain ⟨it0, hget0, he2⟩ := info_to_persist_members m e he
      have hitem : item = it0 := by
        rw [hgete] at hget0
        exact Option.some.inj hget0
      intro hideq
      have hqm : (e.1, item) ∈ m := alGet_mem _ _ _ hgete
      have hqp : (e.1, item) = p :=
        List.inj_on_of_nodup_map hni hqm hp hideq
      have hkey : e.1 = p.1 := congrArg Prod.fst hqp
      have hval : item = p.2 := congrArg Prod.snd hqp
      rw [hval] at hitem
      rw [he2, ← hitem, hval] at hnpe
      rw [hnp] at hnpe
      simp at hnpe
  | true =>
    obtain ⟨pre, post, hm⟩ := List.append_of_mem hp
    have hil : info_to_persist m
        = pre.map (fun q => (q.1, (q.2.id, q.2.version)))
          ++ (p.1, (p.2.id, p.2.version))
            :: post.map (fun q => (q.1, (q.2.id, q.2.version))) := by
      rw [hinfo, hm, List.map_append, List.map_cons]
    unfold Storage.flush
    rw [hil, List.foldl_append, List.foldl_cons]
    rw [flush_step_write m ((load_storage_info d).toOption) _
      (p.1, (p.2.id, p.2.version)) p.2 hpm hnp]
    rw [flush_loop_blobGet_frozen]
    · exact alGet_alInsert_self _ _ _
    · intro e he item hgete hnpe
      obtain ⟨q, hq, hqe⟩ := List.mem_map.mp he
      have hqm : q ∈ m := by
        rw [hm]
        exact List.mem_append_right _ (List.mem_cons_of_mem _ hq)
      have hgq : Storage.get m q.1 = some q.2 := alGet_of_mem_nodup m q hnk hqm
      have he1 : e.1 = q.1 := by rw [← hqe]
      have hitem : item = q.2 := by
        rw [he1, hgq] at hgete
        exact (Option.some.inj hgete).symm
      have hnoteq : q.2.id ≠ p.2.id := by
        have hnip := hni
        unfold NodupIds at hnip
        rw [hm, List.map_append, List.map_cons] at hnip
        have h1 := (List.nodup_cons.mp (List.Nodup.of_append_right hnip)).1
        intro hc
        have hmm : q.2.id ∈ post.map (fun r => r.2.id) :=
          List.mem_map_of_mem (fun r => r.2.id) hq
        rw [hc] at hmm
        exact h1 hmm
      rw [hitem]
      exact hnoteq

theorem load_items_exact (D : Disk) :
    ∀ (l : StorageMap) (acc : StorageMap),
      (∀ p ∈ l, load_item D p.2.id = .ok p.2) →
      (∀ p ∈ l, p.2.key = p.1) →
      (∀ p ∈ l, alGet acc p.1 = none) →
      (l.map (fun p => p.1)).Nodup →
      load_items (l.map (fun p => p.2.id)) acc D = (.ok (), acc ++ l) := by
  intro l
  induction l with
  | nil => intro acc _ _ _ _; simp [load_items]
  | cons p rest ih =>
    intro acc hload hkeys hacc hnd
    simp only [List.map_cons] at hnd ⊢
    simp only [load_items]
    rw [hload p (List.mem_cons_self _ _)]
    dsimp only
    have hins : Storage.insert acc p.2 = acc ++ [(p.1, p.2)] := by
      unfold Storage.insert
      rw [hkeys p (List.mem_cons_self _ _)]
      rw [alInsert_eq_append _ _ _ (hacc p (List.mem_cons_self _ _))]
    have hnd' := List.nodup_cons.mp hnd
    rw [hins]
    rw [ih (acc ++ [(p.1, p.2)])
      (fun q hq => hload q (List.mem_cons_of_mem _ hq))
      (fun q hq => hkeys q (List.mem_cons_of_mem _ hq))
      ?_ hnd'.2]
    · simp
    · intro q hq
      rw [alGet_append, hacc q (List.mem_cons_of_mem _ hq)]
      have hqe : q.1 ≠ p.1 := by
        intro hc
        have hmm : q.1 ∈ List.map (fun r => r.1) rest :=
          List.mem_map_of_mem (fun r => r.1) hq
        rw [hc] at hmm
        exact hnd'.1 hmm
      simp [alGet, hqe]

/-- Claim C1 (amended): for a storage state whose map has unique keys
matching their items and pairwise-distinct ids, and in which every item
whose (id, version) pair already appears unchanged in the readable prior
manifest still has its own encoding as its on-disk blob (as holds
whenever callers bump `version` on every logical update), a successful
flush writes a manifest mapping each in-memory key to (id, version),
leaves for every item a blob file named by its id whose framed payload
decodes to exactly that item, and the sequence flush, clear, load
returns Ok and restores exactly the pre-clear map, hence the key set and
every per-key decoded inner object. -/
theorem flush_clear_load_restores (m : StorageMap) (d : Disk)
    (hkm : KeysMatch m) (hnk : NodupKeys m) (hni : NodupIds m) (hins : InSync m d) :
    load_storage_info (Storage.flush m d).disk = .ok (info_to_persist m)
    ∧ (∀ p ∈ m, alGet (info_to_persist m) p.1 = some (p.2.id, p.2.version))
    ∧ (∀ p ∈ m, alGet (Storage.flush m d).disk.blobs p.2.id
        = some (encode_file .StrorageItem (.itemP p.2)))
    ∧ (∀ m1, Storage.load m1 (Storage.flush m d).disk = (.ok (), m)) := by
  refine ⟨load_storage_info_flush m d, fun p hp => info_to_persist_get m p hnk hp,
    flush_blob_get m d hnk hni hins, ?_⟩
  intro m1
  unfold Storage.load
  rw [load_storage_info_flush m d]
  dsimp only
  have hids : (info_to_persist m).map (fun e => e.2.1) = m.map (fun p => p.2.id) := by
    rw [info_to_persist_eq m hnk, List.map_map]
    rfl
  rw [hids]
  rw [load_items_exact (Storage.flush m d).disk m (Storage.clear m1)
    (fun p hp => load_item_of_blob _ _ _ (flush_blob_get m d hnk hni hins p hp))
    (fun p hp => hkm p hp)
    (fun p _ => rfl)
    hnk]
  simp [Storage.clear]

/-- Witness for claim C1 at a concrete one-item state over an empty
disk: flush, clear, load restores the exact map. -/
theorem flush_clear_load_restores_witness :
    Storage.load [] (Storage.flush [("k", demoItem1)] Disk.empty).disk
      = (.ok (), [("k", demoItem1)]) :=
  (flush_clear_load_restores [("k", demoItem1)] Disk.empty
    (by unfold KeysMatch; decide) (by unfold NodupKeys; decide)
    (by unfold NodupIds; decide) (by unfold InSync; decide)).2.2.2 []

/-- The item of the claim C1 counterexample: version 0, data [1]. -/
def cItemV0 : StorageItem :=
  { id := "cid", key := "ck", version := 0, data := [1], item_type := .Custom,
    description := none, tags := none, metafields := none, expires_on := none,
    persistence := .Memory, redundancy := 0 }

/-- The state reached by insert, flush, and an inner-object update to
data [2] that does not bump the version. -/
def staleState : StorageMap × Disk :=
  runOps [Op.ins cItemV0, Op.fl, Op.updInner "ck" (some [2])]

/-- Claim C1 counterexample: in `staleState` the in-memory data of "ck"
is [2], yet after flush, clear, load the restored data is the stale [1]:
the version was not bumped, so flush skips the blob rewrite and load
returns the old object, not the pre-clear one. -/
theorem flush_clear_load_loses_unbumped_update :
    (Storage.get staleState.1 "ck").map StorageItem.data = some [2]
    ∧ exceptIsOk (Storage.load [] (Storage.flush staleState.1 staleState.2).disk).1 = true
    ∧ (Storage.get (Storage.load [] (Storage.flush staleState.1 staleState.2).disk).2 "ck").map
        StorageItem.data = some [1] := by
  decide
